import Mathlib

/-!
Verification of the block editor core of the new-tab-note repository.

The definitions below are a shallow embedding of the JavaScript source:

* `BlockType`, `Block`, `BlockOptions`, `Block.new`, `Block.serialize`,
  `Block.deserialize` embed the `Block` class of the block-definitions file
  (`src/unnamed/part_003`).
* `deleteBlock`, `changeBlockType`, `insertBlockAfter`, `enterSplit`,
  `backspaceAtStart`, `checkMarkdownShortcuts`, `onDrop`, the table-grid
  operations and `save` embed the corresponding methods of `BlockEditor`
  (`src/js/editor.js`).

Modelling conventions:

* JavaScript strings are Lean `String`; index arithmetic uses the
  code-point list `String.data` (all shortcut patterns are ASCII, where
  UTF-16 and code-point indexing agree).
* JavaScript truthiness defaulting (`options.x || d`) is embedded by the
  `jsOr*` helpers: absent fields are `none`, and the empty string, `0`,
  `false` and `null` fall back to the default exactly as in the source.
* The DOM is not modelled; a content-editable element is assumed in sync
  with its block, so `contentEl.textContent` and `contentEl.innerHTML`
  are both read as the stored content string (the model treats content
  as plain text, which is exact for the inputs of the claims).
* Fresh identifiers (`Utils.generateId`) and clock reads (`Date.now`)
  are passed in explicitly as `freshId` and `now` arguments.
-/

/-- The 18 block type variants of the `BlockTypes` registry in the
block-definitions file. -/
inductive BlockType where
  | text
  | h1
  | h2
  | h3
  | bullet
  | numbered
  | todo
  | toggle
  | quote
  | code
  | divider
  | callout
  | image
  | table
  | bookmark
  | video
  | file
  | equation
deriving DecidableEq

/-- List of all 18 block types. -/
def BlockType.all : List BlockType :=
  [BlockType.text, BlockType.h1, BlockType.h2, BlockType.h3, BlockType.bullet,
   BlockType.numbered, BlockType.todo, BlockType.toggle, BlockType.quote,
   BlockType.code, BlockType.divider, BlockType.callout, BlockType.image,
   BlockType.table, BlockType.bookmark, BlockType.video, BlockType.file,
   BlockType.equation]

/-- A block instance: the fields assigned by the `Block` constructor in the
block-definitions file. Every field is present on every block, regardless
of its type, exactly as in the source. -/
structure Block where
  id : String
  type : BlockType
  content : String
  checked : Bool
  imageUrl : Option String
  calloutIcon : String
  collapsed : Bool
  children : String
  rows : Nat
  cols : Nat
  tableData : Option (List (List String))
  url : String
  title : String
  description : String
  favicon : String
  videoUrl : String
  fileName : String
  fileSize : Nat
  fileData : Option String
  equation : String
  createdAt : Nat
  updatedAt : Nat
deriving DecidableEq

/-- The `options` object passed to the `Block` constructor and, likewise,
the flat record produced by `Block.serialize`: every field may be absent
(`none`, JavaScript `undefined`). Fields that are nullable strings in the
source (`imageUrl`, `fileData`) and the nullable `tableData` carry a
nested `Option` distinguishing present-but-null from absent. -/
structure BlockOptions where
  id : Option String := none
  type : Option BlockType := none
  content : Option String := none
  checked : Option Bool := none
  imageUrl : Option (Option String) := none
  calloutIcon : Option String := none
  collapsed : Option Bool := none
  children : Option String := none
  rows : Option Nat := none
  cols : Option Nat := none
  tableData : Option (Option (List (List String))) := none
  url : Option String := none
  title : Option String := none
  description : Option String := none
  favicon : Option String := none
  videoUrl : Option String := none
  fileName : Option String := none
  fileSize : Option Nat := none
  fileData : Option (Option String) := none
  equation : Option String := none
  createdAt : Option Nat := none
  updatedAt : Option Nat := none
deriving DecidableEq

/-- JavaScript `options.x || d` for a string field: absent or empty falls
back to the default. -/
def jsOrString : Option String → String → String
  | none, d => d
  | some s, d => if s = "" then d else s

/-- JavaScript `options.x || d` for a numeric field: absent or zero falls
back to the default. -/
def jsOrNat : Option Nat → Nat → Nat
  | none, d => d
  | some n, d => if n = 0 then d else n

/-- JavaScript `options.x || d` for a boolean field: absent or false falls
back to the default. -/
def jsOrBool : Option Bool → Bool → Bool
  | none, d => d
  | some b, d => if b = false then d else b

/-- JavaScript `options.x || d` for a nullable string field: absent, null
or empty falls back to the default. -/
def jsOrStrOpt : Option (Option String) → Option String → Option String
  | none, d => d
  | some none, d => d
  | some (some s), d => if s = "" then d else some s

/-- JavaScript `options.tableData || d`: absent or null falls back to the
default; any array, even the empty one, is truthy. -/
def jsOrTable : Option (Option (List (List String))) →
    Option (List (List String)) → Option (List (List String))
  | none, d => d
  | some none, d => d
  | some (some t), _ => some t

/-- The `Block` constructor of the block-definitions file. `freshId` stands
for the `Utils.generateId()` fallback and `now` for `Date.now()`. The
`collapsed` field uses an explicit undefined test in the source, so only
absence (not falsiness) triggers its default. -/
def Block.new (freshId : String) (now : Nat) (o : BlockOptions) : Block :=
  { id := jsOrString o.id freshId
    type := o.type.getD BlockType.text
    content := jsOrString o.content ""
    checked := jsOrBool o.checked false
    imageUrl := jsOrStrOpt o.imageUrl none
    calloutIcon := jsOrString o.calloutIcon "💡"
    collapsed := o.collapsed.getD true
    children := jsOrString o.children ""
    rows := jsOrNat o.rows 2
    cols := jsOrNat o.cols 2
    tableData := jsOrTable o.tableData none
    url := jsOrString o.url ""
    title := jsOrString o.title ""
    description := jsOrString o.description ""
    favicon := jsOrString o.favicon ""
    videoUrl := jsOrString o.videoUrl ""
    fileName := jsOrString o.fileName ""
    fileSize := jsOrNat o.fileSize 0
    fileData := jsOrStrOpt o.fileData none
    equation := jsOrString o.equation ""
    createdAt := jsOrNat o.createdAt now
    updatedAt := jsOrNat o.updatedAt now }

/-- The `serialize` method of `Block`: the common fields are always
emitted; the type-specific payload groups are emitted only for the
matching type. -/
def Block.serialize (b : Block) : BlockOptions :=
  { id := some b.id
    type := some b.type
    content := some b.content
    checked := some b.checked
    imageUrl := some b.imageUrl
    calloutIcon := some b.calloutIcon
    createdAt := some b.createdAt
    updatedAt := some b.updatedAt
    collapsed := if b.type = BlockType.toggle then some b.collapsed else none
    children := if b.type = BlockType.toggle then some b.children else none
    rows := if b.type = BlockType.table then some b.rows else none
    cols := if b.type = BlockType.table then some b.cols else none
    tableData := if b.type = BlockType.table then some b.tableData else none
    url := if b.type = BlockType.bookmark then some b.url else none
    title := if b.type = BlockType.bookmark then some b.title else none
    description := if b.type = BlockType.bookmark then some b.description else none
    favicon := if b.type = BlockType.bookmark then some b.favicon else none
    videoUrl := if b.type = BlockType.video then some b.videoUrl else none
    fileName := if b.type = BlockType.file then some b.fileName else none
    fileSize := if b.type = BlockType.file then some b.fileSize else none
    fileData := if b.type = BlockType.file then some b.fileData else none
    equation := if b.type = BlockType.equation then some b.equation else none }

/-- The static `deserialize` of `Block`: `new Block(data)`. -/
def Block.deserialize (freshId : String) (now : Nat) (data : BlockOptions) : Block :=
  Block.new freshId now data

/-- JavaScript `text.startsWith(p)`. -/
def jsStartsWith (text p : String) : Bool :=
  p.data.isPrefixOf text.data

/-- JavaScript `text.slice(n)` for a code-point index. -/
def jsDrop (text : String) (n : Nat) : String :=
  String.mk (text.data.drop n)

/-- JavaScript `text.trim()`. -/
def jsTrim (text : String) : String :=
  String.mk (((text.data.dropWhile Char.isWhitespace).reverse.dropWhile
    Char.isWhitespace).reverse)

/-- The `createBlock` method of `BlockEditor`: `new Block` with only type
and content supplied. -/
def createBlock (freshId : String) (now : Nat) (type : BlockType)
    (content : String) : Block :=
  Block.new freshId now { type := some type, content := some content }

/-- The id-lookup used throughout `BlockEditor` (`findIndex` on block id);
returns the length when no block matches (JavaScript `-1`). -/
def findBlockIdx (blocks : List Block) (blockId : String) : Nat :=
  blocks.findIdx (fun b => b.id == blockId)

/-- The `deleteBlock` method of `BlockEditor`: a missing id is ignored;
the sole remaining block is reset to an empty text block instead of being
removed; otherwise the block is spliced out. -/
def deleteBlock (blocks : List Block) (blockId : String) : List Block :=
  let index := findBlockIdx blocks blockId
  if index < blocks.length then
    if blocks.length = 1 then
      match blocks with
      | [] => []
      | b :: rest => { b with content := "", type := BlockType.text } :: rest
    else blocks.eraseIdx index
  else blocks

/-- The `changeBlockType` method of `BlockEditor`: sets the type of the
block in place; a missing id is ignored. -/
def changeBlockType (blocks : List Block) (blockId : String)
    (newType : BlockType) : List Block :=
  let index := findBlockIdx blocks blockId
  if h : index < blocks.length then
    blocks.set index { blocks[index] with type := newType }
  else blocks

/-- The `insertBlockAfter` method of `BlockEditor`: creates a fresh block
and splices it in right after the given id, appending at the end when the
id does not exist. -/
def insertBlockAfter (blocks : List Block) (afterId : String)
    (type : BlockType) (content : String) (freshId : String) (now : Nat) :
    List Block :=
  let index := findBlockIdx blocks afterId
  let block := createBlock freshId now type content
  if index < blocks.length then blocks.insertIdx (index + 1) block
  else blocks ++ [block]

/-- The Enter branch of `onBlockKeyDown`: the content after the caret is
removed from the block (`textBefore` remains, with `textAfter` carried to
the new block), the continue-the-list test reads the truncated text, and
the new block is inserted right after. -/
def enterSplit (blocks : List Block) (blockId : String)
    (textBefore textAfter : String) (freshId : String) (now : Nat) :
    List Block :=
  let index := findBlockIdx blocks blockId
  if h : index < blocks.length then
    let block := blocks[index]
    let blocks1 := blocks.set index { block with content := textBefore }
    let newType :=
      if (block.type = BlockType.bullet ∨ block.type = BlockType.numbered ∨
          block.type = BlockType.todo) ∧ jsTrim textBefore ≠ "" then
        block.type
      else BlockType.text
    insertBlockAfter blocks1 blockId newType textAfter freshId now
  else blocks

/-- Whether `Block.createElement` renders an element with class
`block-content` for a given type: the divider and image cases render none,
and the table, bookmark, video, file and equation cases build their own
widgets without one; every other case falls through to the default
content-editable element (the toggle case adds one explicitly). -/
def hasBlockContent : BlockType → Bool
  | BlockType.divider => false
  | BlockType.image => false
  | BlockType.table => false
  | BlockType.bookmark => false
  | BlockType.video => false
  | BlockType.file => false
  | BlockType.equation => false
  | _ => true

/-- The Backspace-at-start branch of `onBlockKeyDown`. A non-text block is
converted to text in place. A text block merges into the previous block
when that block renders a `block-content` element and is neither a divider
nor an image; the caret lands at the pre-merge length of the previous
content. Otherwise nothing happens. The second component is the requested
caret position (block id, character offset). -/
def backspaceAtStart (blocks : List Block) (blockId : String) :
    List Block × Option (String × Nat) :=
  let index := findBlockIdx blocks blockId
  if h : index < blocks.length then
    let block := blocks[index]
    if block.type ≠ BlockType.text then
      (changeBlockType blocks blockId BlockType.text, none)
    else if hpos : 0 < index then
      let prevBlock := blocks[index - 1]
      if hasBlockContent prevBlock.type ∧ prevBlock.type ≠ BlockType.divider ∧
          prevBlock.type ≠ BlockType.image then
        let prevLength := prevBlock.content.length
        let blocks1 := blocks.set (index - 1)
          { prevBlock with content := prevBlock.content ++ block.content }
        (deleteBlock blocks1 blockId, some (prevBlock.id, prevLength))
      else (blocks, none)
    else (blocks, none)
  else (blocks, none)

/-- The markdown shortcut table of `checkMarkdownShortcuts`, in the
iteration order of the source object literal. -/
def shortcuts : List (String × BlockType) :=
  [("# ", BlockType.h1), ("## ", BlockType.h2), ("### ", BlockType.h3),
   ("- ", BlockType.bullet), ("* ", BlockType.bullet),
   ("1. ", BlockType.numbered), ("[] ", BlockType.todo),
   ("[ ] ", BlockType.todo), ("> ", BlockType.quote),
   ("``` ", BlockType.code), ("---", BlockType.divider)]

/-- The first shortcut entry whose pattern starts the text, returning the
rest of the text and the target type. -/
def firstShortcutMatch (text : String) : Option (String × BlockType) :=
  shortcuts.findSome? (fun st =>
    if jsStartsWith text st.1 then some (jsDrop text st.1.length, st.2)
    else none)

/-- The `checkMarkdownShortcuts` method of `BlockEditor`: only text blocks
are inspected; the first matching pattern of the table is stripped from
the content and `changeBlockType` is invoked with the target type. -/
def checkMarkdownShortcuts (blocks : List Block) (blockId : String) :
    List Block :=
  let index := findBlockIdx blocks blockId
  if h : index < blocks.length then
    let block := blocks[index]
    if block.type ≠ BlockType.text then blocks
    else
      match firstShortcutMatch block.content with
      | none => blocks
      | some (newContent, newType) =>
          changeBlockType (blocks.set index { block with content := newContent })
            blockId newType
  else blocks

/-- The `onDrop` handler of `BlockEditor`: dropping a block onto itself or
onto no block is ignored; otherwise both indices are looked up before any
mutation, the dragged block is spliced out, and it is spliced back in at
the pre-removal index of the target. -/
def onDrop (blocks : List Block) (draggedId targetId : String) : List Block :=
  if targetId = draggedId then blocks
  else
    let draggedIndex := findBlockIdx blocks draggedId
    let targetIndex := findBlockIdx blocks targetId
    if h : draggedIndex < blocks.length ∧ targetIndex < blocks.length then
      (blocks.eraseIdx draggedIndex).insertIdx targetIndex blocks[draggedIndex]
    else blocks

/-- The `addTableRow` method of `BlockEditor`, restricted to the block it
mutates: appends a row of empty cells of the current column count. -/
def addTableRow (b : Block) : Block :=
  match b.tableData with
  | none => b
  | some td =>
      { b with tableData := some (td ++ [List.replicate b.cols ""]),
               rows := b.rows + 1 }

/-- The `addTableColumn` method of `BlockEditor`, restricted to the block
it mutates: appends one cell per row, a numbered header placeholder on row
zero and the empty string elsewhere, then increments the column count. -/
def addTableColumn (b : Block) : Block :=
  match b.tableData with
  | none => b
  | some td =>
      let td1 := td.enum.map (fun ir =>
        ir.2 ++ [if ir.1 = 0 then "Header " ++ toString (b.cols + 1) else ""])
      { b with tableData := some td1, cols := b.cols + 1 }

/-- The `removeTableRow` method of `BlockEditor`, restricted to the block
it mutates: pops the last row unless only one row remains. -/
def removeTableRow (b : Block) : Block :=
  match b.tableData with
  | none => b
  | some td =>
      if b.rows ≤ 1 then b
      else { b with tableData := some td.dropLast, rows := b.rows - 1 }

/-- The `removeTableColumn` method of `BlockEditor`, restricted to the
block it mutates: pops the last cell of every row unless only one column
remains. -/
def removeTableColumn (b : Block) : Block :=
  match b.tableData with
  | none => b
  | some td =>
      if b.cols ≤ 1 then b
      else { b with tableData := some (td.map List.dropLast),
                    cols := b.cols - 1 }

/-- One record as written by the `save` method of `BlockEditor`: the
serialized block with the note foreign key and the dense order index. -/
structure SavedRecord where
  data : BlockOptions
  canvasId : String
  order : Nat
deriving DecidableEq

/-- The block-saving loop of the `save` method of `BlockEditor`: block `i`
of the sequence is persisted with `order = i`. -/
def save (blocks : List Block) (noteId : String) : List SavedRecord :=
  blocks.enum.map (fun ib =>
    { data := ib.2.serialize, canvasId := noteId, order := ib.1 })

/-! Helper lemmas about the JavaScript defaulting helpers. -/

/-- An absent string field yields the default. -/
theorem jsOrString_none (d : String) : jsOrString none d = d := rfl

/-- An absent numeric field yields the default. -/
theorem jsOrNat_none (d : Nat) : jsOrNat none d = d := rfl

/-- An absent boolean field yields the default. -/
theorem jsOrBool_none (d : Bool) : jsOrBool none d = d := rfl

/-- An absent nullable string field yields the default. -/
theorem jsOrStrOpt_none (d : Option String) : jsOrStrOpt none d = d := rfl

/-- An absent table field yields the default. -/
theorem jsOrTable_none (d : Option (List (List String))) :
    jsOrTable none d = d := rfl

/-- Defaulting a present string to the empty string is the identity. -/
theorem jsOrString_some_default (s : String) : jsOrString (some s) "" = s := by
  unfold jsOrString
  split <;> simp_all

/-- Defaulting a present nonempty string is the identity. -/
theorem jsOrString_some_of_ne (s d : String) (h : s ≠ "") :
    jsOrString (some s) d = s := by
  simp [jsOrString, h]

/-- Defaulting a present number to zero is the identity. -/
theorem jsOrNat_some_zero (n : Nat) : jsOrNat (some n) 0 = n := by
  unfold jsOrNat
  split <;> simp_all

/-- Defaulting a present nonzero number is the identity. -/
theorem jsOrNat_some_of_ne (n d : Nat) (h : n ≠ 0) : jsOrNat (some n) d = n := by
  simp [jsOrNat, h]

/-- Defaulting a present boolean to false is the identity. -/
theorem jsOrBool_some_false (b : Bool) : jsOrBool (some b) false = b := by
  cases b <;> rfl

/-- Defaulting a present nullable string that is not the empty string is
the identity. -/
theorem jsOrStrOpt_some_of_ne (o : Option String) (h : o ≠ some "") :
    jsOrStrOpt (some o) none = o := by
  match o with
  | none => rfl
  | some s =>
      simp only [jsOrStrOpt]
      split <;> simp_all

/-- Defaulting a present nullable table is the identity. -/
theorem jsOrTable_some (o : Option (List (List String))) :
    jsOrTable (some o) none = o := by
  cases o <;> rfl

/-! Helper lemmas about list surgery at a known position. -/

/-- A search that fails on a prefix and succeeds on the next element finds
exactly the length of the prefix. -/
theorem findIdx_append_cons (p : Block → Bool) (l₁ l₂ : List Block) (b : Block)
    (h₁ : ∀ x ∈ l₁, p x = false) (hb : p b = true) :
    (l₁ ++ b :: l₂).findIdx p = l₁.length := by
  induction l₁ with
  | nil => simp [List.findIdx_cons, hb]
  | cons a t ih =>
      have ha : p a = false := h₁ a (by simp)
      have ht : ∀ x ∈ t, p x = false := fun x hx => h₁ x (by simp [hx])
      simp [List.findIdx_cons, ha, ih ht]

/-- Setting at the length of the left part replaces the middle element. -/
theorem set_append_cons (l₁ l₂ : List Block) (b c : Block) :
    (l₁ ++ b :: l₂).set l₁.length c = l₁ ++ c :: l₂ := by
  induction l₁ with
  | nil => rfl
  | cons a t ih => simp [List.set, ih]

/-- Erasing at the length of the left part removes the middle element. -/
theorem eraseIdx_append_cons (l₁ l₂ : List Block) (b : Block) :
    (l₁ ++ b :: l₂).eraseIdx l₁.length = l₁ ++ l₂ := by
  induction l₁ with
  | nil => rfl
  | cons a t ih => simp [List.eraseIdx, ih]

/-- Inserting at the length of the left part places the element between
the two parts. -/
theorem insertIdx_append_cons (l₁ l₂ : List Block) (c : Block) :
    (l₁ ++ l₂).insertIdx l₁.length c = l₁ ++ c :: l₂ := by
  induction l₁ with
  | nil => rfl
  | cons a t ih => simp [List.insertIdx_succ_cons, ih]

/-- Indexing at the length of the left part returns the middle element. -/
theorem getElem_append_cons (l₁ l₂ : List Block) (b : Block)
    (h : l₁.length < (l₁ ++ b :: l₂).length) :
    (l₁ ++ b :: l₂)[l₁.length] = b := by
  induction l₁ with
  | nil => rfl
  | cons a t ih => simpa using ih (by simp)

/-- Indexing one past the length of the left part returns the second
element of the remainder. -/
theorem getElem_append_cons_two (l₁ l₂ : List Block) (p b : Block)
    (h : l₁.length + 1 < (l₁ ++ p :: b :: l₂).length) :
    (l₁ ++ p :: b :: l₂)[l₁.length + 1] = b := by
  rw [List.getElem_append_right (by omega)]
  simp

/-! Concrete blocks used by witnesses and counterexamples. -/

/-- A concrete block of the given id, type and content, as produced by
`createBlock` at time 1, with every other field at its default. -/
def exBlock (i : String) (t : BlockType) (c : String) : Block :=
  createBlock i 1 t c

/-! ### C1 — serialization round-trip -/

/-- Fields outside the serialized payload group of the type of the block
sit at the constructor defaults. -/
def offTypeDefaults (b : Block) : Prop :=
  (b.type = BlockType.toggle ∨ (b.collapsed = true ∧ b.children = "")) ∧
  (b.type = BlockType.table ∨
    (b.rows = 2 ∧ b.cols = 2 ∧ b.tableData = none)) ∧
  (b.type = BlockType.bookmark ∨
    (b.url = "" ∧ b.title = "" ∧ b.description = "" ∧ b.favicon = "")) ∧
  (b.type = BlockType.video ∨ b.videoUrl = "") ∧
  (b.type = BlockType.file ∨
    (b.fileName = "" ∧ b.fileSize = 0 ∧ b.fileData = none)) ∧
  (b.type = BlockType.equation ∨ b.equation = "")

/-- The serialized fields avoid the JavaScript-falsy values that the
constructor would silently replace with defaults on load. -/
def serializedTruthy (b : Block) : Prop :=
  b.id ≠ "" ∧ b.calloutIcon ≠ "" ∧ b.createdAt ≠ 0 ∧ b.updatedAt ≠ 0 ∧
  b.imageUrl ≠ some "" ∧
  (b.type = BlockType.table → b.rows ≠ 0 ∧ b.cols ≠ 0) ∧
  (b.type = BlockType.file → b.fileData ≠ some "")

instance : DecidablePred offTypeDefaults := fun b => by
  unfold offTypeDefaults
  infer_instance

instance : DecidablePred serializedTruthy := fun b => by
  unfold serializedTruthy
  infer_instance

/-- C1 (amended): for every block of each of the 18 types whose fields
outside the serialized payload of its type sit at the constructor
defaults and whose serialized fields are not JavaScript-falsy,
`deserialize(serialize(b))` is field-for-field equal to `b`; the
hypotheses admit arbitrary non-default payloads on the serialized
fields of each type. -/
theorem deserialize_serialize_roundTrip_amended (freshId : String) (now : Nat)
    (b : Block) (h1 : offTypeDefaults b) (h2 : serializedTruthy b) :
    Block.deserialize freshId now b.serialize = b := by
  obtain ⟨hcol, hrow, hbook, hvid, hfile, heq⟩ := h1
  obtain ⟨hid, hico, hcr, hup, himg, htab, hfd⟩ := h2
  cases b with
  | mk id type content checked imageUrl calloutIcon collapsed children rows
      cols tableData url title description favicon videoUrl fileName fileSize
      fileData equation createdAt updatedAt =>
    cases type <;>
      simp_all [Block.deserialize, Block.new, Block.serialize,
        jsOrString_some_default, jsOrString_some_of_ne, jsOrNat_some_zero,
        jsOrNat_some_of_ne, jsOrBool_some_false, jsOrStrOpt_some_of_ne,
        jsOrTable_some, jsOrString_none, jsOrNat_none, jsOrBool_none,
        jsOrStrOpt_none, jsOrTable_none]

/-- A text block whose off-type `collapsed` field is false, as a toggle
block becomes after the sole-block reset of `deleteBlock`. -/
def collapsedTextBlock : Block :=
  { Block.new "b1" 1 { type := some BlockType.text, content := some "hi" } with
      collapsed := false }

/-- C1 counterexample: the round trip is not field-for-field equal on
every block of the 18 types; a text block carrying `collapsed = false` is
serialized without that field and comes back with `collapsed = true`. -/
theorem roundTrip_counterexample :
    Block.deserialize "fresh" 9 collapsedTextBlock.serialize ≠
      collapsedTextBlock ∧
    (Block.deserialize "fresh" 9 collapsedTextBlock.serialize).collapsed =
      true ∧
    collapsedTextBlock.collapsed = false := by
  refine ⟨?_, by decide, by decide⟩
  decide

/-- A toggle block with a non-default payload for the round-trip witness. -/
def rtToggleBlock : Block :=
  { Block.new "a1" 7 { type := some BlockType.toggle, content := some "head" }
      with collapsed := false, children := "body" }

/-- C1 witness: the amended round trip at a concrete toggle block with a
non-default payload. -/
theorem roundTrip_witness :
    Block.deserialize "f" 9 rtToggleBlock.serialize = rtToggleBlock :=
  deserialize_serialize_roundTrip_amended "f" 9 rtToggleBlock (by decide)
    (by decide)

/-! ### C2 — the document is never left empty -/

/-- C2: deleting the only remaining block leaves exactly one block, of
type text with empty content, and `deleteBlock` never leaves a nonempty
document with zero blocks. -/
theorem deleteBlock_never_empty :
    (∀ b : Block, (deleteBlock [b] b.id).length = 1 ∧
      ∀ b2 ∈ deleteBlock [b] b.id,
        b2.type = BlockType.text ∧ b2.content = "") ∧
    (∀ (blocks : List Block) (blockId : String), blocks ≠ [] →
      deleteBlock blocks blockId ≠ []) := by
  constructor
  · intro b
    simp [deleteBlock, findBlockIdx, List.findIdx_cons]
  · intro blocks blockId hne
    have hpos : 0 < blocks.length := List.length_pos.mpr hne
    simp only [deleteBlock, findBlockIdx]
    split
    · split
      · rcases blocks with _ | ⟨b, rest⟩
        · simp_all
        · simp
      · refine List.length_pos.mp ?_
        rw [List.length_eraseIdx, if_pos (by assumption)]
        omega
    · exact hne

/-- C2 witness: the theorem instantiated at a two-block document. -/
theorem deleteBlock_never_empty_witness :
    deleteBlock [exBlock "A" BlockType.text "x",
      exBlock "B" BlockType.h1 "y"] "A" ≠ [] :=
  deleteBlock_never_empty.2
    [exBlock "A" BlockType.text "x", exBlock "B" BlockType.h1 "y"] "A"
    (by decide)

/-! ### C10 — frame of the sole-block reset -/

/-- C10: when `deleteBlock` resets the sole remaining block, only content
and type change; every other field, including the id, both timestamps and
every type-specific payload field, is preserved. -/
theorem deleteBlock_sole_frame (b : Block) :
    ∃ b2, deleteBlock [b] b.id = [b2] ∧
      b2.content = "" ∧ b2.type = BlockType.text ∧
      b2.id = b.id ∧ b2.checked = b.checked ∧ b2.imageUrl = b.imageUrl ∧
      b2.calloutIcon = b.calloutIcon ∧ b2.collapsed = b.collapsed ∧
      b2.children = b.children ∧ b2.rows = b.rows ∧ b2.cols = b.cols ∧
      b2.tableData = b.tableData ∧ b2.url = b.url ∧ b2.title = b.title ∧
      b2.description = b.description ∧ b2.favicon = b.favicon ∧
      b2.videoUrl = b.videoUrl ∧ b2.fileName = b.fileName ∧
      b2.fileSize = b.fileSize ∧ b2.fileData = b.fileData ∧
      b2.equation = b.equation ∧ b2.createdAt = b.createdAt ∧
      b2.updatedAt = b.updatedAt := by
  refine ⟨{ b with content := "", type := BlockType.text }, ?_, by simp_all⟩
  simp [deleteBlock, findBlockIdx, List.findIdx_cons]

/-! ### C8 — dense persisted order values -/

/-- C8: after a flush, the persisted order values are exactly the dense
sequence from 0 to the block count minus one, in sequence order, with no
duplicates. -/
theorem save_order_dense (blocks : List Block) (noteId : String) :
    (save blocks noteId).map SavedRecord.order = List.range blocks.length ∧
    ((save blocks noteId).map SavedRecord.order).Nodup := by
  have h : (save blocks noteId).map SavedRecord.order =
      List.range blocks.length := by
    unfold save
    rw [List.map_map]
    have hfun : (SavedRecord.order ∘ fun ib : Nat × Block =>
        ({ data := ib.2.serialize, canvasId := noteId, order := ib.1 } :
          SavedRecord)) = Prod.fst :=
      funext fun x => rfl
    rw [hfun, List.enum_map_fst]
  exact ⟨h, by simp [h, List.nodup_range]⟩

/-! ### C9 — table column operations -/

/-- C9: `addTableColumn` appends exactly one cell per row (the numbered
header placeholder on the header row, the empty string elsewhere) and
increments the column count; `removeTableColumn` pops the last cell of
each row and decrements the column count, never going below one column;
and the two operations cancel, restoring the original grid exactly. -/
theorem tableColumn_addRemove (b : Block) (td : List (List String))
    (h : b.tableData = some td) :
    ((addTableColumn b).cols = b.cols + 1 ∧ (addTableColumn b).rows = b.rows ∧
      ∃ td1, (addTableColumn b).tableData = some td1 ∧
        td1.length = td.length ∧
        ∀ i : Nat, i < td.length →
          td1[i]? = some ((td[i]?.getD []) ++
            [if i = 0 then "Header " ++ toString (b.cols + 1) else ""])) ∧
    (1 < b.cols →
      (removeTableColumn b).tableData = some (td.map List.dropLast) ∧
      (removeTableColumn b).cols = b.cols - 1) ∧
    (b.cols ≤ 1 → removeTableColumn b = b) ∧
    (1 ≤ b.cols → 1 ≤ (removeTableColumn b).cols) ∧
    (1 ≤ b.cols → removeTableColumn (addTableColumn b) = b) := by
  refine ⟨?_, ?_, ?_, ?_, ?_⟩
  · refine ⟨by simp [addTableColumn, h], by simp [addTableColumn, h],
      td.enum.map (fun ir =>
        ir.2 ++ [if ir.1 = 0 then "Header " ++ toString (b.cols + 1) else ""]),
      by simp [addTableColumn, h], by simp [List.enum_length], ?_⟩
    intro i hi
    rw [List.getElem?_map, List.getElem?_enum]
    rw [List.getElem?_eq_getElem hi]
    simp
  · intro hc
    have hnot : ¬ b.cols ≤ 1 := by omega
    simp [removeTableColumn, h, hnot]
  · intro hc
    simp only [removeTableColumn]
    rw [h]
    simp [hc]
  · intro hc
    by_cases h1 : b.cols ≤ 1
    · simp only [removeTableColumn]
      rw [h]
      simp [h1]
      omega
    · simp only [removeTableColumn]
      rw [h]
      simp [h1]
      omega
  · intro hc
    simp only [addTableColumn, h]
    have hnot : ¬ b.cols + 1 ≤ 1 := by omega
    simp only [removeTableColumn, hnot, if_false]
    rw [List.map_map]
    have hdrop : (List.dropLast ∘ fun ir : Nat × List String =>
        ir.2 ++ [if ir.1 = 0 then "Header " ++ toString (b.cols + 1) else ""]) =
        Prod.snd := by
      funext ir
      simp [List.dropLast_concat]
    rw [hdrop, List.enum_map_snd, ← h]
    simp

/-- A concrete 2-by-2 table block for the column round-trip witness. -/
def wTableBlock : Block :=
  { exBlock "t1" BlockType.table "" with
      tableData := some [["Header 1", "Header 2"], ["x", "y"]] }

/-- C9 witness: on a concrete 2-by-2 table, adding then removing a column
restores the original grid byte-for-byte. -/
theorem tableColumn_addRemove_witness :
    removeTableColumn (addTableColumn wTableBlock) = wTableBlock :=
  (tableColumn_addRemove wTableBlock [["Header 1", "Header 2"], ["x", "y"]]
    (by decide)).2.2.2.2 (by decide)

/-! ### C3 — drag-and-drop reorder -/

/-- When the self-drop guard does not fire and both ids are found, `onDrop`
erases at the dragged index and reinserts at the pre-removal target
index. -/
theorem onDrop_eq_of_found (blocks : List Block) (dId tId : String)
    (hne : tId ≠ dId) (hdi : findBlockIdx blocks dId < blocks.length)
    (hti : findBlockIdx blocks tId < blocks.length) :
    onDrop blocks dId tId =
      (blocks.eraseIdx (findBlockIdx blocks dId)).insertIdx
        (findBlockIdx blocks tId)
        (blocks.get ⟨findBlockIdx blocks dId, hdi⟩) := by
  unfold onDrop
  rw [if_neg hne, dif_pos (And.intro hdi hti)]
  simp [List.get_eq_getElem]

/-- C3 (amended): the dragged block is removed and reinserted at the
pre-removal index of the target, which places it immediately before the
target when the dragged block was after the target, and immediately after
the target when the dragged block was before it; dropping onto itself or
onto a missing target leaves the sequence unchanged. -/
theorem onDrop_reorder_amended :
    (∀ (l₁ l₂ l₃ : List Block) (d t : Block),
      (∀ x ∈ l₁, x.id ≠ d.id ∧ x.id ≠ t.id) → (∀ x ∈ l₂, x.id ≠ d.id) →
      t.id ≠ d.id →
      onDrop (l₁ ++ t :: l₂ ++ d :: l₃) d.id t.id =
        l₁ ++ d :: t :: l₂ ++ l₃) ∧
    (∀ (l₁ l₂ l₃ : List Block) (d t : Block),
      (∀ x ∈ l₁, x.id ≠ d.id ∧ x.id ≠ t.id) → (∀ x ∈ l₂, x.id ≠ t.id) →
      t.id ≠ d.id →
      onDrop (l₁ ++ d :: l₂ ++ t :: l₃) d.id t.id =
        l₁ ++ l₂ ++ t :: d :: l₃) ∧
    (∀ (blocks : List Block) (sameId : String),
      onDrop blocks sameId sameId = blocks) ∧
    (∀ (blocks : List Block) (dId tId : String),
      (∀ x ∈ blocks, x.id ≠ tId) → onDrop blocks dId tId = blocks) := by
  refine ⟨?_, ?_, ?_, ?_⟩
  · intro l₁ l₂ l₃ d t h₁ h₂ hne
    have hassoc : l₁ ++ t :: l₂ ++ d :: l₃ = (l₁ ++ t :: l₂) ++ d :: l₃ := by
      simp
    rw [hassoc]
    have hdi : findBlockIdx ((l₁ ++ t :: l₂) ++ d :: l₃) d.id =
        (l₁ ++ t :: l₂).length := by
      apply findIdx_append_cons
      · intro x hx
        rcases List.mem_append.mp hx with hx1 | hx2
        · exact beq_eq_false_iff_ne.mpr (h₁ x hx1).1
        · rcases List.mem_cons.mp hx2 with hx3 | hx4
          · subst hx3
            exact beq_eq_false_iff_ne.mpr hne
          · exact beq_eq_false_iff_ne.mpr (h₂ x hx4)
      · exact beq_self_eq_true d.id
    have hti : findBlockIdx ((l₁ ++ t :: l₂) ++ d :: l₃) t.id =
        l₁.length := by
      have : (l₁ ++ t :: l₂) ++ d :: l₃ = l₁ ++ t :: (l₂ ++ d :: l₃) := by
        simp
      rw [this]
      apply findIdx_append_cons
      · intro x hx
        exact beq_eq_false_iff_ne.mpr (h₁ x hx).2
      · exact beq_self_eq_true t.id
    have hlen : ((l₁ ++ t :: l₂) ++ d :: l₃).length =
        l₁.length + l₂.length + l₃.length + 2 := by
      simp
      omega
    have hdilt : findBlockIdx ((l₁ ++ t :: l₂) ++ d :: l₃) d.id <
        ((l₁ ++ t :: l₂) ++ d :: l₃).length := by
      rw [hdi, hlen]
      simp
      omega
    have htilt : findBlockIdx ((l₁ ++ t :: l₂) ++ d :: l₃) t.id <
        ((l₁ ++ t :: l₂) ++ d :: l₃).length := by
      rw [hti, hlen]
      omega
    rw [onDrop_eq_of_found _ _ _ hne hdilt htilt]
    have hget : ((l₁ ++ t :: l₂) ++ d :: l₃).get
        ⟨findBlockIdx ((l₁ ++ t :: l₂) ++ d :: l₃) d.id, hdilt⟩ = d := by
      simp only [List.get_eq_getElem]
      have := getElem_append_cons (l₁ ++ t :: l₂) l₃ d (by simp)
      simp_all [hdi]
    rw [hget, hdi, hti, eraseIdx_append_cons]
    have : (l₁ ++ t :: l₂) ++ l₃ = l₁ ++ (t :: l₂ ++ l₃) := by simp
    rw [this, insertIdx_append_cons]
    simp
  · intro l₁ l₂ l₃ d t h₁ h₂ hne
    have hassoc : l₁ ++ d :: l₂ ++ t :: l₃ = l₁ ++ d :: (l₂ ++ t :: l₃) := by
      simp
    rw [hassoc]
    have hdi : findBlockIdx (l₁ ++ d :: (l₂ ++ t :: l₃)) d.id =
        l₁.length := by
      apply findIdx_append_cons
      · intro x hx
        exact beq_eq_false_iff_ne.mpr (h₁ x hx).1
      · exact beq_self_eq_true d.id
    have hti : findBlockIdx (l₁ ++ d :: (l₂ ++ t :: l₃)) t.id =
        ((l₁ ++ d :: l₂)).length := by
      have : l₁ ++ d :: (l₂ ++ t :: l₃) = (l₁ ++ d :: l₂) ++ t :: l₃ := by
        simp
      rw [this]
      apply findIdx_append_cons
      · intro x hx
        rcases List.mem_append.mp hx with hx1 | hx2
        · exact beq_eq_false_iff_ne.mpr (h₁ x hx1).2
        · rcases List.mem_cons.mp hx2 with hx3 | hx4
          · subst hx3
            exact beq_eq_false_iff_ne.mpr (fun hdd => hne hdd.symm)
          · exact beq_eq_false_iff_ne.mpr (h₂ x hx4)
      · exact beq_self_eq_true t.id
    have hlen : (l₁ ++ d :: (l₂ ++ t :: l₃)).length =
        l₁.length + l₂.length + l₃.length + 2 := by
      simp
      omega
    have hdilt : findBlockIdx (l₁ ++ d :: (l₂ ++ t :: l₃)) d.id <
        (l₁ ++ d :: (l₂ ++ t :: l₃)).length := by
      rw [hdi, hlen]
      omega
    have htilt : findBlockIdx (l₁ ++ d :: (l₂ ++ t :: l₃)) t.id <
        (l₁ ++ d :: (l₂ ++ t :: l₃)).length := by
      rw [hti, hlen]
      simp
      omega
    rw [onDrop_eq_of_found _ _ _ hne hdilt htilt]
    have hget : (l₁ ++ d :: (l₂ ++ t :: l₃)).get
        ⟨findBlockIdx (l₁ ++ d :: (l₂ ++ t :: l₃)) d.id, hdilt⟩ = d := by
      simp only [List.get_eq_getElem]
      have := getElem_append_cons l₁ (l₂ ++ t :: l₃) d (by simp)
      simp_all [hdi]
    rw [hget, hdi, hti, eraseIdx_append_cons]
    have hidx : (l₁ ++ d :: l₂).length = ((l₁ ++ l₂) ++ [t]).length := by
      simp
    have hlist : l₁ ++ (l₂ ++ t :: l₃) = ((l₁ ++ l₂) ++ [t]) ++ l₃ := by
      simp
    rw [hidx, hlist, insertIdx_append_cons]
    simp
  · intro blocks sameId
    simp [onDrop]
  · intro blocks dId tId h
    unfold onDrop
    by_cases hid : tId = dId
    · rw [if_pos hid]
    · rw [if_neg hid]
      have hti : List.findIdx (fun b => b.id == tId) blocks = blocks.length :=
        List.findIdx_eq_length.mpr
          (fun x hx => beq_eq_false_iff_ne.mpr (h x hx))
      rw [dif_neg]
      simp [findBlockIdx, hti]

/-- Four concrete text blocks with ids A, B, C, D. -/
def dropBlocks : List Block :=
  [exBlock "A" BlockType.text "", exBlock "B" BlockType.text "",
   exBlock "C" BlockType.text "", exBlock "D" BlockType.text ""]

/-- C3 counterexample: dragging A onto C in the document A, B, C, D does
not reinsert A immediately before C (which would give B, A, C, D); the
code inserts at the pre-removal index of C, yielding B, C, A, D. -/
theorem onDrop_forward_counterexample :
    (onDrop dropBlocks "A" "C").map Block.id = ["B", "C", "A", "D"] ∧
    (onDrop dropBlocks "A" "C").map Block.id ≠ ["B", "A", "C", "D"] := by
  constructor <;> decide

/-- C3 witness: the amended theorem instantiated at the spec example:
dragging C onto A in A, B, C, D yields C, A, B, D. -/
theorem onDrop_reorder_witness :
    onDrop [exBlock "A" BlockType.text "", exBlock "B" BlockType.text "",
        exBlock "C" BlockType.text "", exBlock "D" BlockType.text ""]
        (exBlock "C" BlockType.text "").id (exBlock "A" BlockType.text "").id =
      [exBlock "C" BlockType.text "", exBlock "A" BlockType.text "",
       exBlock "B" BlockType.text "", exBlock "D" BlockType.text ""] := by
  have h := onDrop_reorder_amended.1 [] [exBlock "B" BlockType.text ""]
    [exBlock "D" BlockType.text ""] (exBlock "C" BlockType.text "")
    (exBlock "A" BlockType.text "") (by decide) (by decide) (by decide)
  simpa using h

/-! ### C4 — type inheritance across an Enter split -/

/-- C4 (amended): splitting inserts a fresh block after the original, and
the new block carries the original type exactly when the original type is
bullet, numbered or todo and the text retained in the original block (the
pre-caret text, measured after truncation and trimmed) is nonempty; in
every other case the new block is a text block, which coincides with the
original type when the original block is itself a text block. -/
theorem enterSplit_type_amended (l₁ l₂ : List Block) (b : Block)
    (textBefore textAfter freshId : String) (now : Nat)
    (h₁ : ∀ x ∈ l₁, x.id ≠ b.id) :
    ∃ nb, enterSplit (l₁ ++ b :: l₂) b.id textBefore textAfter freshId now =
        l₁ ++ { b with content := textBefore } :: nb :: l₂ ∧
      nb.type = (if (b.type = BlockType.bullet ∨ b.type = BlockType.numbered ∨
          b.type = BlockType.todo) ∧ jsTrim textBefore ≠ "" then b.type
        else BlockType.text) ∧
      nb.content = textAfter ∧ nb.id = freshId := by
  have hidx : findBlockIdx (l₁ ++ b :: l₂) b.id = l₁.length := by
    apply findIdx_append_cons
    · intro x hx
      exact beq_eq_false_iff_ne.mpr (h₁ x hx)
    · exact beq_self_eq_true b.id
  have hlt : l₁.length < (l₁ ++ b :: l₂).length := by
    simp
  have hget : (l₁ ++ b :: l₂)[l₁.length] = b := getElem_append_cons l₁ l₂ b hlt
  set newType := (if (b.type = BlockType.bullet ∨ b.type = BlockType.numbered ∨
      b.type = BlockType.todo) ∧ jsTrim textBefore ≠ "" then b.type
    else BlockType.text) with hnt
  refine ⟨createBlock freshId now newType textAfter, ?_, ?_, ?_, ?_⟩
  · simp only [enterSplit, hidx]
    rw [dif_pos hlt]
    simp only [hget, set_append_cons]
    have hidx2 : findBlockIdx (l₁ ++ { b with content := textBefore } :: l₂)
        b.id = l₁.length := by
      apply findIdx_append_cons
      · intro x hx
        exact beq_eq_false_iff_ne.mpr (h₁ x hx)
      · exact beq_self_eq_true b.id
    simp only [insertBlockAfter, hidx2]
    rw [if_pos (by simp)]
    have hsplit : l₁ ++ { b with content := textBefore } :: l₂ =
        (l₁ ++ [{ b with content := textBefore }]) ++ l₂ := by
      simp
    have hlen1 : l₁.length + 1 = (l₁ ++ [{ b with content := textBefore }]).length := by
      simp
    rw [hsplit, hlen1, insertIdx_append_cons]
    simp
  · simp [createBlock, Block.new]
  · simp [createBlock, Block.new, jsOrString_some_default]
  · simp [createBlock, Block.new, jsOrString_none]

/-- C4 counterexample: a bullet block with content abc split at caret
position zero keeps the bullet type on the left half, but the new block is
a text block even though the pre-truncation content abc was nonempty and
the bullet type can inherit across a split; the code tests the truncated
text instead. -/
theorem enterSplit_counterexample :
    (enterSplit [exBlock "X" BlockType.bullet "abc"] "X" "" "abc" "Y" 5).map
        Block.type = [BlockType.bullet, BlockType.text] ∧
    (enterSplit [exBlock "X" BlockType.bullet "abc"] "X" "" "abc" "Y" 5).map
        Block.type ≠ [BlockType.bullet, BlockType.bullet] := by
  constructor <;> decide

/-- C4 witness: the amended theorem at a bullet block split after the
letters ab, with nonempty retained text, so the new block continues the
bullet list. -/
theorem enterSplit_witness :
    (enterSplit [exBlock "X" BlockType.bullet "abc"]
        (exBlock "X" BlockType.bullet "abc").id "ab" "c" "Y" 5).map
      Block.type = [BlockType.bullet, BlockType.bullet] := by
  obtain ⟨nb, heq, htype, hcon, hid⟩ :=
    enterSplit_type_amended [] [] (exBlock "X" BlockType.bullet "abc") "ab" "c"
      "Y" 5 (by decide)
  rw [if_pos (by decide)] at htype
  simp only [List.nil_append] at heq
  rw [heq]
  simp only [List.map_cons, List.map_nil, htype]
  decide

/-! ### C5 — backspace at the start of a block -/

/-- A type that renders a content element is neither the divider nor the
image type. -/
theorem hasBlockContent_ne (t : BlockType) (h : hasBlockContent t = true) :
    t ≠ BlockType.divider ∧ t ≠ BlockType.image := by
  cases t <;> simp_all [hasBlockContent]

/-- C5 (amended): backspace at start is two-phase. A non-text block is
only converted to text in place. A text block with a previous block
merges into it exactly when the previous block renders an editable
content element (its type is not divider, image, table, bookmark, video,
file or equation): the content is appended, the block is deleted, and the
caret is requested at the pre-merge length of the previous content. When
the previous block renders no content element — the atomic divider and
image types, but also table, bookmark, video, file and equation — nothing
happens, and a first text block is likewise left unchanged. -/
theorem backspaceAtStart_amended :
    (∀ (l₁ l₂ : List Block) (b : Block),
      (∀ x ∈ l₁, x.id ≠ b.id) → b.type ≠ BlockType.text →
      backspaceAtStart (l₁ ++ b :: l₂) b.id =
        (l₁ ++ { b with type := BlockType.text } :: l₂, none)) ∧
    (∀ (l₁ l₂ : List Block) (p b : Block),
      (∀ x ∈ l₁, x.id ≠ b.id) → p.id ≠ b.id → b.type = BlockType.text →
      hasBlockContent p.type = true →
      backspaceAtStart (l₁ ++ p :: b :: l₂) b.id =
        (l₁ ++ { p with content := p.content ++ b.content } :: l₂,
         some (p.id, p.content.length))) ∧
    (∀ (l₁ l₂ : List Block) (p b : Block),
      (∀ x ∈ l₁, x.id ≠ b.id) → p.id ≠ b.id → b.type = BlockType.text →
      hasBlockContent p.type = false →
      backspaceAtStart (l₁ ++ p :: b :: l₂) b.id = (l₁ ++ p :: b :: l₂, none)) ∧
    (∀ (l₂ : List Block) (b : Block), b.type = BlockType.text →
      backspaceAtStart (b :: l₂) b.id = (b :: l₂, none)) := by
  refine ⟨?_, ?_, ?_, ?_⟩
  · intro l₁ l₂ b h₁ htype
    have hidx : findBlockIdx (l₁ ++ b :: l₂) b.id = l₁.length := by
      apply findIdx_append_cons
      · intro x hx
        exact beq_eq_false_iff_ne.mpr (h₁ x hx)
      · exact beq_self_eq_true b.id
    have hlt : l₁.length < (l₁ ++ b :: l₂).length := by simp
    have hget : (l₁ ++ b :: l₂)[l₁.length] = b := getElem_append_cons l₁ l₂ b hlt
    simp only [backspaceAtStart, hidx]
    rw [dif_pos hlt]
    simp only [hget]
    rw [if_pos htype]
    simp only [changeBlockType, hidx]
    rw [dif_pos hlt]
    simp only [hget, set_append_cons]
  · intro l₁ l₂ p b h₁ hp htype hcontent
    obtain ⟨hnd, hni⟩ := hasBlockContent_ne p.type hcontent
    have hsplit : l₁ ++ p :: b :: l₂ = (l₁ ++ [p]) ++ b :: l₂ := by simp
    have hidx : findBlockIdx (l₁ ++ p :: b :: l₂) b.id = l₁.length + 1 := by
      rw [hsplit]
      have := findIdx_append_cons (fun x => x.id == b.id) (l₁ ++ [p]) l₂ b
        (by
          intro x hx
          rcases List.mem_append.mp hx with hx1 | hx2
          · exact beq_eq_false_iff_ne.mpr (h₁ x hx1)
          · rcases List.mem_singleton.mp hx2 with rfl
            exact beq_eq_false_iff_ne.mpr hp)
        (beq_self_eq_true b.id)
      simpa using this
    have hlt : l₁.length + 1 < (l₁ ++ p :: b :: l₂).length := by simp
    have hgetb : (l₁ ++ p :: b :: l₂)[l₁.length + 1] = b :=
      getElem_append_cons_two l₁ l₂ p b (by simp)
    have hgetp : (l₁ ++ p :: b :: l₂)[l₁.length] = p :=
      getElem_append_cons l₁ (b :: l₂) p (by simp)
    simp only [backspaceAtStart, hidx]
    rw [dif_pos hlt]
    simp only [hgetb]
    rw [if_neg (by simp [htype]), dif_pos (Nat.succ_pos l₁.length)]
    simp only [Nat.add_sub_cancel, hgetp]
    rw [if_pos (And.intro hcontent (And.intro hnd hni))]
    simp only [set_append_cons]
    have hidx2 : findBlockIdx
        (l₁ ++ { p with content := p.content ++ b.content } :: b :: l₂) b.id =
        l₁.length + 1 := by
      have hsplit2 : l₁ ++ { p with content := p.content ++ b.content } :: b :: l₂ =
          (l₁ ++ [{ p with content := p.content ++ b.content }]) ++ b :: l₂ := by
        simp
      rw [hsplit2]
      have := findIdx_append_cons (fun x => x.id == b.id)
        (l₁ ++ [{ p with content := p.content ++ b.content }]) l₂ b
        (by
          intro x hx
          rcases List.mem_append.mp hx with hx1 | hx2
          · exact beq_eq_false_iff_ne.mpr (h₁ x hx1)
          · rcases List.mem_singleton.mp hx2 with rfl
            exact beq_eq_false_iff_ne.mpr hp)
        (beq_self_eq_true b.id)
      simpa using this
    simp only [deleteBlock, hidx2]
    rw [if_pos (by simp)]
    rw [if_neg (by simp only [List.length_append, List.length_cons]; omega)]
    have hsplit3 : l₁ ++ { p with content := p.content ++ b.content } :: b :: l₂ =
        (l₁ ++ [{ p with content := p.content ++ b.content }]) ++ b :: l₂ := by
      simp
    rw [hsplit3]
    have := eraseIdx_append_cons
      (l₁ ++ [{ p with content := p.content ++ b.content }]) l₂ b
    simp only [List.length_append, List.length_singleton] at this
    rw [this]
    simp
  · intro l₁ l₂ p b h₁ hp htype hcontent
    have hsplit : l₁ ++ p :: b :: l₂ = (l₁ ++ [p]) ++ b :: l₂ := by simp
    have hidx : findBlockIdx (l₁ ++ p :: b :: l₂) b.id = l₁.length + 1 := by
      rw [hsplit]
      have := findIdx_append_cons (fun x => x.id == b.id) (l₁ ++ [p]) l₂ b
        (by
          intro x hx
          rcases List.mem_append.mp hx with hx1 | hx2
          · exact beq_eq_false_iff_ne.mpr (h₁ x hx1)
          · rcases List.mem_singleton.mp hx2 with rfl
            exact beq_eq_false_iff_ne.mpr hp)
        (beq_self_eq_true b.id)
      simpa using this
    have hlt : l₁.length + 1 < (l₁ ++ p :: b :: l₂).length := by simp
    have hgetb : (l₁ ++ p :: b :: l₂)[l₁.length + 1] = b :=
      getElem_append_cons_two l₁ l₂ p b (by simp)
    have hgetp : (l₁ ++ p :: b :: l₂)[l₁.length] = p :=
      getElem_append_cons l₁ (b :: l₂) p (by simp)
    simp only [backspaceAtStart, hidx]
    rw [dif_pos hlt]
    simp only [hgetb]
    rw [if_neg (by simp [htype]), dif_pos (Nat.succ_pos l₁.length)]
    simp only [Nat.add_sub_cancel, hgetp]
    rw [if_neg (by simp [hcontent])]
  · intro l₂ b htype
    have hidx : findBlockIdx (b :: l₂) b.id = 0 := by
      simp [findBlockIdx, List.findIdx_cons]
    simp only [backspaceAtStart, hidx]
    rw [dif_pos (by simp)]
    simp only [List.getElem_cons_zero]
    rw [if_neg (by simp [htype]), dif_neg (by omega)]

/-- A document whose first block is an equation block followed by a text
block; the equation type is not atomic in the sense of the claim. -/
def eqPrevBlocks : List Block :=
  [exBlock "P" BlockType.equation "E", exBlock "B" BlockType.text "bar"]

/-- C5 counterexample: backspace at the start of the text block bar whose
previous block is a (non-atomic) equation block does not merge: the claim
requires the merge to delete the text block, leaving one block, but both
blocks are left unchanged. -/
theorem backspace_merge_counterexample :
    backspaceAtStart eqPrevBlocks "B" = (eqPrevBlocks, none) ∧
    (backspaceAtStart eqPrevBlocks "B").1.length ≠ 1 := by
  constructor <;> decide

/-- C5 witness: merging the text block bar into the text block foo yields
one block with content foobar and a caret request at offset 3. -/
theorem backspaceAtStart_witness :
    backspaceAtStart [exBlock "A" BlockType.text "foo",
        exBlock "B" BlockType.text "bar"]
        (exBlock "B" BlockType.text "bar").id =
      ([{ exBlock "A" BlockType.text "foo" with
            content := (exBlock "A" BlockType.text "foo").content ++
              (exBlock "B" BlockType.text "bar").content }],
       some ((exBlock "A" BlockType.text "foo").id,
         (exBlock "A" BlockType.text "foo").content.length)) :=
  backspaceAtStart_amended.2.1 [] [] (exBlock "A" BlockType.text "foo")
    (exBlock "B" BlockType.text "bar") (by decide) (by decide) (by decide)
    (by decide)

/-! ### C6, C7 — markdown shortcut detector -/

/-- No pattern of the shortcut table is a prefix of another pattern: the
hash, bracket and dash patterns are all terminated so that no shorter
entry can shadow a longer one. -/
theorem shortcuts_no_shadow :
    ∀ e₁ ∈ shortcuts, ∀ e₂ ∈ shortcuts, e₁.1.data <+: e₂.1.data → e₁ = e₂ := by
  decide

/-- A `findSome?` whose function succeeds on a member that is the only
member it succeeds on returns that value. -/
theorem findSome?_eq_of_unique {α β : Type} (l : List α) (f : α → Option β)
    (a : α) (b : β) (ha : a ∈ l) (hfa : f a = some b)
    (huniq : ∀ x ∈ l, f x ≠ none → x = a) :
    l.findSome? f = some b := by
  induction l with
  | nil => cases ha
  | cons hd tl ih =>
      rw [List.findSome?_cons]
      cases hfh : f hd with
      | some y =>
          have heq : hd = a := huniq hd (by simp) (by simp [hfh])
          subst heq
          rw [hfh] at hfa
          simpa using hfa
      | none =>
          have hne : a ≠ hd := by
            intro hcon
            subst hcon
            rw [hfa] at hfh
            cases hfh
          have hmem : a ∈ tl := by
            rcases List.mem_cons.mp ha with hcon | h
            · exact absurd hcon hne
            · exact h
          exact ih hmem (fun x hx hfx => huniq x (by simp [hx]) hfx)

/-- If some pattern of the table starts the text, the first match is that
pattern: matching patterns are unique, so the most specific (indeed, the
only) matching pattern is applied. -/
theorem firstShortcutMatch_eq (content s : String) (t : BlockType)
    (hmem : (s, t) ∈ shortcuts) (hpre : jsStartsWith content s = true) :
    firstShortcutMatch content = some (jsDrop content s.length, t) := by
  apply findSome?_eq_of_unique shortcuts _ (s, t)
  · exact hmem
  · simp [hpre]
  · intro x hx hxne
    have hxpre : jsStartsWith content x.1 = true := by
      by_contra hc
      simp only [Bool.not_eq_true] at hc
      simp [hc] at hxne
    have h1 : x.1.data <+: content.data :=
      List.isPrefixOf_iff_prefix.mp hxpre
    have h2 : s.data <+: content.data :=
      List.isPrefixOf_iff_prefix.mp hpre
    rcases List.prefix_or_prefix_of_prefix h1 h2 with h | h
    · exact shortcuts_no_shadow x hx (s, t) hmem h
    · exact (shortcuts_no_shadow (s, t) hmem x hx h).symm

/-- The detector on a text block: the first matching pattern is stripped
and the type converted; no match leaves the document unchanged. -/
theorem checkMarkdownShortcuts_split (l₁ l₂ : List Block) (b : Block)
    (h₁ : ∀ x ∈ l₁, x.id ≠ b.id) (htext : b.type = BlockType.text) :
    checkMarkdownShortcuts (l₁ ++ b :: l₂) b.id =
      match firstShortcutMatch b.content with
      | none => l₁ ++ b :: l₂
      | some (nc, t) => l₁ ++ { b with content := nc, type := t } :: l₂ := by
  have hidx : findBlockIdx (l₁ ++ b :: l₂) b.id = l₁.length := by
    apply findIdx_append_cons
    · intro x hx
      exact beq_eq_false_iff_ne.mpr (h₁ x hx)
    · exact beq_self_eq_true b.id
  have hlt : l₁.length < (l₁ ++ b :: l₂).length := by simp
  have hget : (l₁ ++ b :: l₂)[l₁.length] = b := getElem_append_cons l₁ l₂ b hlt
  simp only [checkMarkdownShortcuts, hidx]
  rw [dif_pos hlt]
  simp only [hget]
  rw [if_neg (by simp [htext])]
  cases hm : firstShortcutMatch b.content with
  | none => rfl
  | some nct =>
      obtain ⟨nc, t⟩ := nct
      simp only [set_append_cons]
      have hidx2 : findBlockIdx (l₁ ++ { b with content := nc } :: l₂) b.id =
          l₁.length := by
        apply findIdx_append_cons
        · intro x hx
          exact beq_eq_false_iff_ne.mpr (h₁ x hx)
        · exact beq_self_eq_true b.id
      simp only [changeBlockType, hidx2]
      rw [dif_pos (by simp)]
      rw [getElem_append_cons l₁ l₂ { b with content := nc } (by simp),
        set_append_cons]

/-- C7: the detector fires only on text blocks, and whenever a pattern of
the table starts the content of a text block, exactly that pattern is
applied — it is stripped from the content and the block converts to the
corresponding type. Matching patterns are unique (no pattern of the table
is a prefix of another), so a longer, more specific pattern is never
shadowed by a shorter one. -/
theorem markdown_shortcut_applies :
    (∀ (l₁ l₂ : List Block) (b : Block) (s : String) (t : BlockType),
      (∀ x ∈ l₁, x.id ≠ b.id) → b.type = BlockType.text →
      (s, t) ∈ shortcuts → jsStartsWith b.content s = true →
      checkMarkdownShortcuts (l₁ ++ b :: l₂) b.id =
        l₁ ++ { b with content := jsDrop b.content s.length,
                       type := t } :: l₂) ∧
    (∀ (l₁ l₂ : List Block) (b : Block),
      (∀ x ∈ l₁, x.id ≠ b.id) → b.type ≠ BlockType.text →
      checkMarkdownShortcuts (l₁ ++ b :: l₂) b.id = l₁ ++ b :: l₂) ∧
    (∀ e₁ ∈ shortcuts, ∀ e₂ ∈ shortcuts, e₁.1.data <+: e₂.1.data →
      e₁ = e₂) := by
  refine ⟨?_, ?_, shortcuts_no_shadow⟩
  · intro l₁ l₂ b s t h₁ htext hmem hpre
    rw [checkMarkdownShortcuts_split l₁ l₂ b h₁ htext,
      firstShortcutMatch_eq b.content s t hmem hpre]
  · intro l₁ l₂ b h₁ htype
    have hidx : findBlockIdx (l₁ ++ b :: l₂) b.id = l₁.length := by
      apply findIdx_append_cons
      · intro x hx
        exact beq_eq_false_iff_ne.mpr (h₁ x hx)
      · exact beq_self_eq_true b.id
    have hlt : l₁.length < (l₁ ++ b :: l₂).length := by simp
    have hget : (l₁ ++ b :: l₂)[l₁.length] = b :=
      getElem_append_cons l₁ l₂ b hlt
    simp only [checkMarkdownShortcuts, hidx]
    rw [dif_pos hlt]
    simp only [hget]
    rw [if_pos htype]

/-- C7 witness: a text block with content starting with the h2 pattern
converts to an h2 block with the pattern stripped, and a text block with
the unchecked-todo bracket pattern converts to a todo block with the
pattern stripped (its checked flag untouched, hence unchecked). -/
theorem markdown_shortcut_witness :
    (checkMarkdownShortcuts [exBlock "m" BlockType.text "## Hello"]
        (exBlock "m" BlockType.text "## Hello").id =
      [{ exBlock "m" BlockType.text "## Hello" with
          content := jsDrop (exBlock "m" BlockType.text "## Hello").content
            ("## " : String).length,
          type := BlockType.h2 }]) ∧
    (checkMarkdownShortcuts [exBlock "n" BlockType.text "[] buy milk"]
        (exBlock "n" BlockType.text "[] buy milk").id =
      [{ exBlock "n" BlockType.text "[] buy milk" with
          content := jsDrop (exBlock "n" BlockType.text "[] buy milk").content
            ("[] " : String).length,
          type := BlockType.todo }]) :=
  ⟨markdown_shortcut_applies.1 [] [] (exBlock "m" BlockType.text "## Hello")
      "## " BlockType.h2 (by decide) (by decide) (by decide) (by decide),
   markdown_shortcut_applies.1 [] [] (exBlock "n" BlockType.text "[] buy milk")
      "[] " BlockType.todo (by decide) (by decide) (by decide) (by decide)⟩

/-- C6 (amended): a text block converts to a divider exactly when its
content starts with the three-dash pattern — not only when the content is
exactly three dashes — and the dashes are stripped, the remainder
becoming the new content; content not starting with three dashes never
produces a divider. -/
theorem divider_shortcut_amended (l₁ l₂ : List Block) (b : Block)
    (h₁ : ∀ x ∈ l₁, x.id ≠ b.id) (htext : b.type = BlockType.text) :
    (jsStartsWith b.content "---" = true →
      checkMarkdownShortcuts (l₁ ++ b :: l₂) b.id =
        l₁ ++ { b with content := jsDrop b.content 3,
                       type := BlockType.divider } :: l₂) ∧
    (jsStartsWith b.content "---" = false →
      ∃ b2, checkMarkdownShortcuts (l₁ ++ b :: l₂) b.id = l₁ ++ b2 :: l₂ ∧
        b2.type ≠ BlockType.divider) := by
  constructor
  · intro hpre
    rw [checkMarkdownShortcuts_split l₁ l₂ b h₁ htext,
      firstShortcutMatch_eq b.content "---" BlockType.divider (by decide) hpre]
    rfl
  · intro hnpre
    rw [checkMarkdownShortcuts_split l₁ l₂ b h₁ htext]
    cases hm : firstShortcutMatch b.content with
    | none =>
        exact ⟨b, rfl, by simp [htext]⟩
    | some nct =>
        obtain ⟨nc, t⟩ := nct
        refine ⟨{ b with content := nc, type := t }, rfl, ?_⟩
        simp only
        intro hdiv
        subst hdiv
        obtain ⟨st, hstmem, hst⟩ :=
          List.exists_of_findSome?_eq_some hm
        obtain ⟨s0, t0⟩ := st
        by_cases hsp : jsStartsWith b.content s0 = true
        · rw [if_pos hsp] at hst
          have ht0 : t0 = BlockType.divider := by
            simpa using congrArg (fun x => (Option.map Prod.snd x)) hst
          subst ht0
          have hs0 : s0 = "---" := by
            have : ∀ e ∈ shortcuts, e.2 = BlockType.divider → e.1 = "---" := by
              decide
            exact this (s0, BlockType.divider) hstmem rfl
          subst hs0
          rw [hsp] at hnpre
          cases hnpre
        · simp only [Bool.not_eq_true] at hsp
          rw [if_neg (by simp [hsp])] at hst
          cases hst

/-- A text block whose content starts with three dashes but continues. -/
def dashBlock : Block := exBlock "a" BlockType.text "---abc"

/-- C6 counterexample: content that merely begins with three dashes and
contains further characters is still converted to a divider (with the
remainder as content), contradicting the exact-whole-content claim. -/
theorem divider_prefix_counterexample :
    (checkMarkdownShortcuts [dashBlock] "a").map
        (fun b => (b.type, b.content)) = [(BlockType.divider, "abc")] ∧
    dashBlock.content ≠ "---" := by
  constructor <;> decide

/-- C6 witness: the amended theorem at a text block whose whole content is
exactly three dashes, which converts to a divider with empty content. -/
theorem divider_shortcut_witness :
    checkMarkdownShortcuts [exBlock "d" BlockType.text "---"]
        (exBlock "d" BlockType.text "---").id =
      [{ exBlock "d" BlockType.text "---" with
          content := jsDrop (exBlock "d" BlockType.text "---").content 3,
          type := BlockType.divider }] :=
  (divider_shortcut_amended [] [] (exBlock "d" BlockType.text "---")
    (by decide) (by decide)).1 (by decide)
